import Mathlib

/-!
Verification development for the hyperflow-job-executor worker
(`src/handler.js`).  The executor's control flow is embedded shallowly:

* external effects (Redis calls, process exit codes, file existence,
  telemetry samples) are parameters or oracles of the Lean functions;
* the observable actions of a task-handling run are recorded as a trace
  of `Event`s;
* fallible steps return `Except`.
-/

set_option autoImplicit false

namespace HFJob

/-- Observable actions a task-handling run can perform, in the order the
handler emits them (`handler.js`).  `spawn a` is one `spawn(...)` call of
the job executable for attempt number `a`; `notify c` is one call of
`notifyJobCompletion` with exit code `c`. -/
inductive Event where
  | saddAllJobs : Event
  | acquireIncr : Event
  | warnDuplicate : Event
  | completionCheck : Event
  | getMessage : Event
  | waitInputs : Event
  | spawn : Nat → Event
  | notify : Int → Event
  | logNotifyError : Event
  | sremAllJobs : Event
deriving DecidableEq, Repr

/-- Number of process spawns recorded in a trace. -/
def spawnCount (evs : List Event) : Nat :=
  evs.countP fun e => match e with | .spawn _ => true | _ => false

/-- Number of completion-notification calls recorded in a trace. -/
def notifyCount (evs : List Event) : Nat :=
  evs.countP fun e => match e with | .notify _ => true | _ => false

/-- Terminal branch of `executeJob` (`handler.js` lines 251-287): the
completion notification is attempted once with the final exit code; on
success the `hf_all_jobs` member is removed and the code is resolved, on
failure the error is logged (`console.error` + `logger.error`) and
re-thrown, so no removal happens.  The `.error` component records that
failure outcome in this trace-level view; what the rethrow means for the
promise an awaiting caller observes (it never settles the promise, whose
`reject` is never invoked) is modelled separately by
`executeJobSettlement`. -/
def terminalStep (notifyRes : Except Unit Unit) (code : Int) (attempt : Nat) :
    List Event × Except Unit Int :=
  match notifyRes with
  | .error _ => ([Event.spawn attempt, Event.notify code, Event.logNotifyError], .error ())
  | .ok _ => ([Event.spawn attempt, Event.notify code, Event.sremAllJobs], .ok code)

/-- Shallow embedding of `executeJob` (`handler.js` lines 162-290).
`exit a` is the exit code the spawned process reports on attempt `a`
(the external oracle for the job's behaviour); `numRetries` is the
current value of the mutable `numRetries` counter on entry.  The source
decrements `numRetries` first (`numRetries--`), spawns the process, and
on a non-zero exit with `numRetries > 0` re-invokes `executeJob` with
`attempt+1` after the backoff delay; otherwise it notifies completion.
The counter is modelled as `Nat`: a non-positive JS value never enables
the retry branch, exactly like `0` here ( `0 < n - 1` in `Nat` iff
the decremented counter is still positive). -/
def executeJob (exit : Nat → Int) (notifyRes : Except Unit Unit) :
    Nat → Nat → List Event × Except Unit Int
  | Nat.succ (Nat.succ n), attempt =>
      let code := exit attempt
      if code ≠ 0 then
        let rest := executeJob exit notifyRes (Nat.succ n) (attempt + 1)
        (Event.spawn attempt :: rest.1, rest.2)
      else
        terminalStep notifyRes code attempt
  | _, attempt => terminalStep notifyRes (exit attempt) attempt

/-- Backoff factor of `executeJob` (`handler.js` line 247):
`var factor = attempt > 5 ? 5 : attempt`. -/
def backoffFactor (attempt : Nat) : Nat :=
  if 5 < attempt then 5 else attempt

/-- Backoff delay of `executeJob` (`handler.js` line 248):
`Math.floor(Math.random() * backoffSeed * factor)`, with the value of
`Math.random()` modelled as a rational `rand` in `[0, 1)`. -/
def backoffDelay (rand : ℚ) (backoffSeed : ℕ) (attempt : ℕ) : ℤ :=
  Int.floor (rand * (backoffSeed : ℚ) * (backoffFactor attempt : ℚ))

/-- One execution of `checkFiles` and its rescheduled successors inside
`waitForInputs` (`handler.js` lines 292-345), with explicit fuel.  The
source rejects when `num_retries > max_retries` holds before any file
check, so the call tree from `num_retries = numR` has exactly
`max_retries + 1 - numR` rounds of fuel.  `o r f` tells whether file `f`
exists when round `r` checks it.  Returns the outcome, the number of
rounds that performed existence checks, and the per-round trace: each
entry is (files existence-checked this round, `filesReady` after this
round). -/
def waitCheckFuel (o : Nat → String → Bool) :
    Nat → Nat → List String → List String →
    Except Unit Unit × Nat × List (List String × List String)
  | 0, _, _, _ => (.error (), 0, [])
  | fuel + 1, numR, watching, ready =>
      let found := watching.filter fun f => o numR f
      let stillWatching := watching.filter fun f => !(o numR f)
      let newReady := ready ++ found
      if stillWatching.isEmpty then
        (.ok (), 1, [(watching, newReady)])
      else
        let rest := waitCheckFuel o fuel (numR + 1) stillWatching newReady
        (rest.1, rest.2.1 + 1, (watching, newReady) :: rest.2.2)

/-- Shallow embedding of `waitForInputs` (`handler.js` lines 292-345):
start at `num_retries = 0` with every input file watched and no file
ready. -/
def waitForInputs (o : Nat → String → Bool) (files : List String) (maxRetries : Nat) :
    Except Unit Unit × Nat × List (List String × List String) :=
  waitCheckFuel o (maxRetries + 1) 0 files []

/-- Parsed job message fields used by the handler (`handler.js`). -/
structure JobMessage where
  name : String
  executable : String
  args : List String
  inputs : List String
  outputs : List String
deriving DecidableEq, Repr

/-- Outcomes of the external Redis calls a run makes, fixed up front:
result of `incr` on the acquisition counter, the `sismember` answer on
the completed-tasks set, the retrieved-and-parsed job message, and the
result of `notifyJobCompletion`. -/
structure RedisWorld where
  acqResult : Except Unit Nat
  completed : Bool
  msgResult : Except Unit JobMessage
  notifyResult : Except Unit Unit

/-- Configuration of a run (`handler.js` lines 159-160, 419, 422). -/
structure Config where
  numRetries : Nat
  waitForInputFiles : Bool
  fileWatchNumRetries : Nat

/-- Shallow embedding of the orchestration in `handleJob`
(`handler.js` lines 39-456): add the member to `hf_all_jobs` (line 50),
increment the acquisition counter and warn on a duplicate (lines
387-392, an `incr` error rejects and propagates), short-circuit when the
task already completed (lines 394-403, returning success with no exit
code), retrieve the job message (lines 405-416, error propagates),
optionally wait for input files (lines 418-426, timeout propagates),
then run `executeJob` from attempt 1 (line 441). -/
def handleJob (w : RedisWorld) (cfg : Config) (o : Nat → String → Bool)
    (exit : Nat → Int) : List Event × Except Unit (Option Int) :=
  match w.acqResult with
  | .error _ => ([Event.saddAllJobs], .error ())
  | .ok cnt =>
    let pre := [Event.saddAllJobs, Event.acquireIncr] ++
      (if 1 < cnt then [Event.warnDuplicate] else []) ++ [Event.completionCheck]
    if w.completed then
      (pre, .ok none)
    else
      match w.msgResult with
      | .error _ => (pre ++ [Event.getMessage], .error ())
      | .ok jm =>
        let pre := pre ++ [Event.getMessage]
        if cfg.waitForInputFiles && !jm.inputs.isEmpty then
          match (waitForInputs o jm.inputs cfg.fileWatchNumRetries).1 with
          | .error _ => (pre ++ [Event.waitInputs], .error ())
          | .ok _ =>
            let r := executeJob exit w.notifyResult cfg.numRetries 1
            (pre ++ [Event.waitInputs] ++ r.1, r.2.map some)
        else
          let r := executeJob exit w.notifyResult cfg.numRetries 1
          (pre ++ r.1, r.2.map some)

/-- Kinds of error a telemetry sample can raise: the procfs
`ERR_NOT_FOUND` ("process does not exist") versus anything else
(`handler.js` lines 99, 114, 129). -/
inductive ProcError where
  | notFound : ProcError
  | other : ProcError
deriving DecidableEq, Repr

/-- Observable outcome of one iteration of a sampling loop:
whether a sample line went to the trace logger, whether a message went
to the console, and whether the loop rescheduled itself
(`setTimeout(...)` reached). -/
structure SamplerStep where
  loggedSample : Bool
  loggedConsole : Bool
  reschedules : Bool
deriving DecidableEq, Repr

/-- One iteration of the `logProcIO` loop (`handler.js` lines 105-119):
on success the sample is logged and the loop reschedules inside the
`try`; a thrown `ERR_NOT_FOUND` prints a console note; any other thrown
error is caught and ignored.  Either thrown error skips the
`setTimeout`, so the loop never reschedules after an error. -/
def logProcIOStep (res : Except ProcError Unit) : SamplerStep :=
  match res with
  | .ok _ => ⟨true, false, true⟩
  | .error .notFound => ⟨false, true, false⟩
  | .error .other => ⟨false, false, false⟩

/-- One iteration of the `logProcNetDev` loop (`handler.js` lines
121-134): like `logProcIO` but the `ERR_NOT_FOUND` console note is
commented out, so every error path is fully silent and, the
`setTimeout` being inside the `try`, the loop never reschedules after an
error. -/
def logProcNetDevStep (res : Except ProcError Unit) : SamplerStep :=
  match res with
  | .ok _ => ⟨true, false, true⟩
  | .error _ => ⟨false, false, false⟩

/-- One iteration of the `logPidUsage` loop (`handler.js` lines
136-156): the `pidusage` callback receives `err`; on any error it
prints `pidusage error ...` to the console and returns before the
`setTimeout`, so the loop stops on every error, not-found or not. -/
def logPidUsageStep (res : Except ProcError Unit) : SamplerStep :=
  match res with
  | .ok _ => ⟨true, false, true⟩
  | .error _ => ⟨false, true, false⟩

/-- Modelled from the documented semantics of the Redis `BRPOPLPUSH`
command invoked at `handler.js` line 65 with source = destination
(`rcl.brpoplpush(jobMsgKey, jobMsgKey, timeout)`): atomically remove the
tail element of the list and push it onto the head of the same list,
returning the element; on an empty list (after the timeout) return
nothing and leave the list empty. -/
def brpoplpushSameKey (queue : List String) : Option String × List String :=
  match queue.getLast? with
  | none => (none, queue)
  | some v => (some v, v :: queue.dropLast)

/-- Settlement states of a JS promise as observed by an awaiting caller:
`resolve` ran with a value, `reject` ran or a throw reached the promise
so the `await` raises, or neither ever runs and the `await` blocks
forever. -/
inductive Settlement where
  | resolved : Int → Settlement
  | rejected : Settlement
  | unsettled : Settlement
deriving DecidableEq, Repr

/-- Settlement reached by the promise one `executeJob` invocation
creates (`handler.js` lines 162-290), as observed by the `await` at
line 441.  `notifyOk` tells whether `notifyJobCompletion` succeeds.
`resolve(code)` (line 286) runs only when the close handler takes the
non-retry branch and the notification succeeded.  The bound `reject`
(line 163) is never invoked anywhere in the function.  On the retry
branch (lines 241-250) the re-invoked `executeJob`'s fresh promise is
discarded inside `setTimeout`, so the present promise never settles.
On a notification failure the `catch` rethrows (line 259) inside the
async close listener, whose rejection the event emitter discards, so
again the present promise never settles.  Hence `Settlement.rejected`
is never produced. -/
def executeJobSettlement (exit : Nat → Int) (notifyOk : Bool)
    (numRetries attempt : Nat) : Settlement :=
  if exit attempt ≠ 0 ∧ 0 < numRetries - 1 then
    Settlement.unsettled
  else if notifyOk then
    Settlement.resolved (exit attempt)
  else
    Settlement.unsettled

/-- Settlement outcomes of one whole `handleJob` call as observed by
its caller: the async function returned a value, raised an error, or
never settled. -/
inductive RunSettlement where
  | returned : Option Int → RunSettlement
  | failed : RunSettlement
  | unsettled : RunSettlement
deriving DecidableEq, Repr

/-- Settlement of the whole `handleJob` run (`handler.js` lines
39-456).  The `await`s of `acquireTask` (line 388), `getJobMessage`
(line 408) and `waitForInputs` (line 422) rethrow a rejection to the
caller, failing the run; the `await executeJob(jm, 1)` at line 441
returns the executor's resolved value, would rethrow a rejection of
that promise, and blocks forever when that promise never settles. -/
def handleJobRun (w : RedisWorld) (cfg : Config) (o : Nat → String → Bool)
    (exit : Nat → Int) : RunSettlement :=
  match w.acqResult with
  | .error _ => .failed
  | .ok _ =>
    if w.completed then
      .returned none
    else
      match w.msgResult with
      | .error _ => .failed
      | .ok jm =>
        let notifyOk := match w.notifyResult with | .ok _ => true | .error _ => false
        if cfg.waitForInputFiles && !jm.inputs.isEmpty then
          match (waitForInputs o jm.inputs cfg.fileWatchNumRetries).1 with
          | .error _ => .failed
          | .ok _ =>
            match executeJobSettlement exit notifyOk cfg.numRetries 1 with
            | .resolved c => .returned (some c)
            | .rejected => .failed
            | .unsettled => .unsettled
        else
          match executeJobSettlement exit notifyOk cfg.numRetries 1 with
          | .resolved c => .returned (some c)
          | .rejected => .failed
          | .unsettled => .unsettled

/-! ### Helper lemmas about `executeJob` -/

lemma spawnCount_nil : spawnCount [] = 0 := rfl

lemma spawnCount_cons (e : Event) (l : List Event) :
    spawnCount (e :: l) =
      (if (match e with | .spawn _ => true | _ => false) then 1 else 0) + spawnCount l := by
  simp [spawnCount, List.countP_cons, Nat.add_comm]

lemma notifyCount_terminalStep (nres : Except Unit Unit) (code : Int) (a : Nat) :
    notifyCount (terminalStep nres code a).1 = 1 := by
  cases nres <;> simp [terminalStep, notifyCount, List.countP_cons]

lemma spawnCount_terminalStep (nres : Except Unit Unit) (code : Int) (a : Nat) :
    spawnCount (terminalStep nres code a).1 = 1 := by
  cases nres <;> simp [terminalStep, spawnCount, List.countP_cons]

lemma notifyCount_executeJob (exit : Nat → Int) (nres : Except Unit Unit) :
    ∀ n a, notifyCount (executeJob exit nres n a).1 = 1 := by
  intro n
  induction n using Nat.strong_induction_on with
  | _ n ih =>
    intro a
    match n with
    | 0 => simpa [executeJob] using notifyCount_terminalStep nres (exit a) a
    | 1 => simpa [executeJob] using notifyCount_terminalStep nres (exit a) a
    | Nat.succ (Nat.succ k) =>
      by_cases hc : exit a ≠ 0
      · have hrec := ih (k + 1) (by omega) (a + 1)
        simp only [executeJob, if_pos hc]
        simpa [notifyCount, List.countP_cons] using hrec
      · simp only [executeJob, if_neg hc]
        exact notifyCount_terminalStep nres (exit a) a

lemma spawnCount_executeJob_le (exit : Nat → Int) (nres : Except Unit Unit) :
    ∀ n a, spawnCount (executeJob exit nres n a).1 ≤ max 1 n := by
  intro n
  induction n using Nat.strong_induction_on with
  | _ n ih =>
    intro a
    match n with
    | 0 =>
      simp only [executeJob]
      rw [spawnCount_terminalStep]
      omega
    | 1 =>
      simp only [executeJob]
      rw [spawnCount_terminalStep]
      omega
    | Nat.succ (Nat.succ k) =>
      by_cases hc : exit a ≠ 0
      · have hrec := ih k.succ (by omega) (a + 1)
        simp only [executeJob, if_pos hc]
        simp [spawnCount, List.countP_cons, Nat.succ_eq_add_one] at hrec ⊢
        omega
      · simp only [executeJob, if_neg hc]
        rw [spawnCount_terminalStep]
        omega

lemma spawnCount_executeJob_fail (exit : Nat → Int) (nres : Except Unit Unit)
    (hfail : ∀ k, exit k ≠ 0) :
    ∀ n a, 1 ≤ n → spawnCount (executeJob exit nres n a).1 = n := by
  intro n
  induction n using Nat.strong_induction_on with
  | _ n ih =>
    intro a hn
    match n with
    | 1 =>
      simp only [executeJob]
      rw [spawnCount_terminalStep]
    | Nat.succ (Nat.succ k) =>
      have hrec := ih k.succ (by omega) (a + 1) (by omega)
      simp only [executeJob, if_pos (hfail a)]
      simp [spawnCount, List.countP_cons, Nat.succ_eq_add_one] at hrec ⊢
      omega

lemma executeJob_fail_notify_mem (exit : Nat → Int) (nres : Except Unit Unit)
    (hfail : ∀ k, exit k ≠ 0) :
    ∀ n a, 1 ≤ n → Event.notify (exit (a + n - 1)) ∈ (executeJob exit nres n a).1 := by
  intro n
  induction n using Nat.strong_induction_on with
  | _ n ih =>
    intro a hn
    match n with
    | 1 =>
      cases nres <;> simp [executeJob, terminalStep]
    | Nat.succ (Nat.succ k) =>
      have hrec := ih (k + 1) (by omega) (a + 1) (by omega)
      have harith : a + 1 + (k + 1) - 1 = a + (k + 2) - 1 := by omega
      rw [harith] at hrec
      simp only [executeJob, if_pos (hfail a)]
      exact List.mem_cons_of_mem _ hrec

lemma executeJob_exists_notify (exit : Nat → Int) (nres : Except Unit Unit)
    (n a : Nat) : ∃ c, Event.notify c ∈ (executeJob exit nres n a).1 := by
  induction n using Nat.strong_induction_on generalizing a with
  | _ n ih =>
    match n with
    | 0 => cases nres <;> exact ⟨exit a, by simp [executeJob, terminalStep]⟩
    | 1 => cases nres <;> exact ⟨exit a, by simp [executeJob, terminalStep]⟩
    | Nat.succ (Nat.succ k) =>
      by_cases hc : exit a ≠ 0
      · obtain ⟨c, hc'⟩ := ih (k + 1) (by omega) (a + 1)
        exact ⟨c, by simp only [executeJob, if_pos hc]; exact List.mem_cons_of_mem _ hc'⟩
      · cases nres <;> exact ⟨exit a, by simp [executeJob, if_neg hc, terminalStep]⟩

lemma executeJob_notify_error (exit : Nat → Int) :
    ∀ n a, (executeJob exit (.error ()) n a).2 = .error () ∧
      Event.logNotifyError ∈ (executeJob exit (.error ()) n a).1 ∧
      Event.sremAllJobs ∉ (executeJob exit (.error ()) n a).1 := by
  intro n
  induction n using Nat.strong_induction_on with
  | _ n ih =>
    intro a
    match n with
    | 0 => simp [executeJob, terminalStep]
    | 1 => simp [executeJob, terminalStep]
    | Nat.succ (Nat.succ k) =>
      by_cases hc : exit a ≠ 0
      · have hrec := ih (k + 1) (by omega) (a + 1)
        simp only [executeJob, if_pos hc]
        refine ⟨hrec.1, List.mem_cons_of_mem _ hrec.2.1, ?_⟩
        simp only [List.mem_cons, not_or]
        exact ⟨by simp, hrec.2.2⟩
      · simp [executeJob, if_neg hc, terminalStep]

lemma executeJob_notify_ok (exit : Nat → Int) :
    ∀ n a, (∃ c, (executeJob exit (.ok ()) n a).2 = .ok c) ∧
      Event.sremAllJobs ∈ (executeJob exit (.ok ()) n a).1 := by
  intro n
  induction n using Nat.strong_induction_on with
  | _ n ih =>
    intro a
    match n with
    | 0 => simp [executeJob, terminalStep]
    | 1 => simp [executeJob, terminalStep]
    | Nat.succ (Nat.succ k) =>
      by_cases hc : exit a ≠ 0
      · have hrec := ih (k + 1) (by omega) (a + 1)
        simp only [executeJob, if_pos hc]
        exact ⟨hrec.1, List.mem_cons_of_mem _ hrec.2⟩
      · simp [executeJob, if_neg hc, terminalStep]

/-! ### Helper lemmas about `waitCheckFuel` -/

lemma waitCheckFuel_entry_subset (o : Nat → String → Bool) :
    ∀ fuel numR w r e, e ∈ (waitCheckFuel o fuel numR w r).2.2 →
      ∀ x, x ∈ e.1 → x ∈ w := by
  intro fuel
  induction fuel with
  | zero =>
    intro numR w r e he
    simp [waitCheckFuel] at he
  | succ fuel ih =>
    intro numR w r e he x hx
    cases hst : (w.filter fun f => !(o numR f)).isEmpty with
    | true =>
      simp only [waitCheckFuel, hst, if_true, List.mem_singleton] at he
      rw [he] at hx
      exact hx
    | false =>
      simp only [waitCheckFuel, hst, Bool.false_eq_true, if_false, List.mem_cons] at he
      rcases he with he | he
      · rw [he] at hx; exact hx
      · have := ih (numR + 1) (w.filter fun f => !(o numR f)) _ e he x hx
        exact (List.mem_filter.mp this).1

lemma waitCheckFuel_get0 (o : Nat → String → Bool) (fuel numR : Nat)
    (w r : List String) :
    ((waitCheckFuel o (fuel + 1) numR w r).2.2)[0]? =
      some (w, r ++ w.filter fun f => o numR f) := by
  cases hst : (w.filter fun f => !(o numR f)).isEmpty <;>
    simp [waitCheckFuel, hst]

lemma waitCheckFuel_consec (o : Nat → String → Bool) :
    ∀ fuel numR w r i e e',
      ((waitCheckFuel o fuel numR w r).2.2)[i]? = some e →
      ((waitCheckFuel o fuel numR w r).2.2)[i + 1]? = some e' →
      e'.1 = e.1.filter fun f => !(o (numR + i) f) := by
  intro fuel
  induction fuel with
  | zero =>
    intro numR w r i e e' h1 h2
    simp [waitCheckFuel] at h1
  | succ fuel ih =>
    intro numR w r i e e' h1 h2
    cases hst : (w.filter fun f => !(o numR f)).isEmpty with
    | true =>
      simp only [waitCheckFuel, hst, if_true] at h2
      simp at h2
    | false =>
      simp only [waitCheckFuel, hst, Bool.false_eq_true, if_false] at h1 h2
      cases i with
      | zero =>
        simp only [List.getElem?_cons_zero, Option.some.injEq] at h1
        simp only [List.getElem?_cons_succ] at h2
        cases fuel with
        | zero => simp [waitCheckFuel] at h2
        | succ fuel' =>
          rw [waitCheckFuel_get0] at h2
          have he' : e' = ((w.filter fun f => !(o numR f)),
              (r ++ w.filter fun f => o numR f) ++
                (w.filter fun f => !(o numR f)).filter fun f => o (numR + 1) f) := by
            exact (Option.some.injEq _ _ ▸ h2).symm
          rw [← h1, he']
          simp
      | succ i' =>
        simp only [List.getElem?_cons_succ] at h1 h2
        have := ih (numR + 1) (w.filter fun f => !(o numR f)) _ i' e e' h1 h2
        have harith : numR + 1 + i' = numR + (i' + 1) := by omega
        rw [harith] at this
        exact this

lemma waitCheckFuel_ready (o : Nat → String → Bool) :
    ∀ fuel numR w r i e f,
      ((waitCheckFuel o fuel numR w r).2.2)[i]? = some e →
      f ∈ e.1 → o (numR + i) f = true → f ∈ e.2 := by
  intro fuel
  induction fuel with
  | zero =>
    intro numR w r i e f h1
    simp [waitCheckFuel] at h1
  | succ fuel ih =>
    intro numR w r i e f h1 hf ho
    cases hst : (w.filter fun f => !(o numR f)).isEmpty with
    | true =>
      simp only [waitCheckFuel, hst, if_true] at h1
      cases i with
      | zero =>
        simp only [List.getElem?_cons_zero, Option.some.injEq] at h1
        rw [← h1] at hf ⊢
        simp only [Nat.add_zero] at ho
        exact List.mem_append_right _ (List.mem_filter.mpr ⟨hf, ho⟩)
      | succ i' => simp at h1
    | false =>
      simp only [waitCheckFuel, hst, Bool.false_eq_true, if_false] at h1
      cases i with
      | zero =>
        simp only [List.getElem?_cons_zero, Option.some.injEq] at h1
        rw [← h1] at hf ⊢
        simp only [Nat.add_zero] at ho
        exact List.mem_append_right _ (List.mem_filter.mpr ⟨hf, ho⟩)
      | succ i' =>
        simp only [List.getElem?_cons_succ] at h1
        have := ih (numR + 1) (w.filter fun f => !(o numR f)) _ i' e f h1 hf
        have harith : numR + 1 + i' = numR + (i' + 1) := by omega
        rw [harith] at this
        exact this ho

lemma waitCheckFuel_no_recheck (o : Nat → String → Bool) :
    ∀ fuel numR w r i j e e' f, i < j →
      ((waitCheckFuel o fuel numR w r).2.2)[i]? = some e →
      ((waitCheckFuel o fuel numR w r).2.2)[j]? = some e' →
      f ∈ e.1 → o (numR + i) f = true → f ∉ e'.1 := by
  intro fuel
  induction fuel with
  | zero =>
    intro numR w r i j e e' f _ h1
    simp [waitCheckFuel] at h1
  | succ fuel ih =>
    intro numR w r i j e e' f hij h1 h2 hf ho
    cases hst : (w.filter fun f => !(o numR f)).isEmpty with
    | true =>
      simp only [waitCheckFuel, hst, if_true] at h2
      match j, hij with
      | j' + 1, _ => simp at h2
    | false =>
      simp only [waitCheckFuel, hst, Bool.false_eq_true, if_false] at h1 h2
      match i, j, hij with
      | 0, j' + 1, _ =>
        simp only [List.getElem?_cons_zero, Option.some.injEq] at h1
        simp only [List.getElem?_cons_succ] at h2
        simp only [Nat.add_zero] at ho
        intro hmem
        have hsub := waitCheckFuel_entry_subset o fuel (numR + 1)
          (w.filter fun f => !(o numR f)) _ e'
          (by
            have := List.getElem?_mem h2
            exact this) f hmem
        have : (!(o numR f)) = true := (List.mem_filter.mp hsub).2
        rw [ho] at this
        simp at this
      | i' + 1, j' + 1, _ =>
        simp only [List.getElem?_cons_succ] at h1 h2
        have harith : numR + 1 + i' = numR + (i' + 1) := by omega
        exact ih (numR + 1) (w.filter fun f => !(o numR f)) _ i' j' e e' f
          (by omega) h1 h2 hf (by rw [harith]; exact ho)

lemma waitCheckFuel_fail (o : Nat → String → Bool) :
    ∀ fuel numR w r, w ≠ [] → (∀ rd f, f ∈ w → o rd f = false) →
      (waitCheckFuel o fuel numR w r).1 = .error () ∧
      (waitCheckFuel o fuel numR w r).2.1 = fuel := by
  intro fuel
  induction fuel with
  | zero => intro numR w r _ _; exact ⟨rfl, rfl⟩
  | succ fuel ih =>
    intro numR w r hne hall
    have hfilter : (w.filter fun f => !(o numR f)) = w :=
      List.filter_eq_self.mpr (by intro a ha; simp [hall numR a ha])
    have hemp : w.isEmpty = false := by
      cases w with
      | nil => exact absurd rfl hne
      | cons a l => rfl
    have ihres := ih (numR + 1) w (r ++ w.filter fun f => o numR f) hne hall
    simp only [waitCheckFuel, hfilter, hemp, Bool.false_eq_true, if_false]
    exact ⟨ihres.1, by rw [ihres.2]⟩

/-! ### Helper lemmas about event shapes and the orchestration -/

lemma terminalStep_event_shape (nres : Except Unit Unit) (code : Int) (a : Nat)
    (e : Event) (he : e ∈ (terminalStep nres code a).1) :
    (∃ b, e = Event.spawn b) ∨ (∃ c, e = Event.notify c) ∨
      e = Event.logNotifyError ∨ e = Event.sremAllJobs := by
  cases nres with
  | error u =>
    simp only [terminalStep, List.mem_cons, List.mem_singleton] at he
    rcases he with h | h | h
    · exact .inl ⟨a, h⟩
    · exact .inr (.inl ⟨code, h⟩)
    · simp at h
      exact .inr (.inr (.inl h))
  | ok u =>
    simp only [terminalStep, List.mem_cons, List.mem_singleton] at he
    rcases he with h | h | h
    · exact .inl ⟨a, h⟩
    · exact .inr (.inl ⟨code, h⟩)
    · simp at h
      exact .inr (.inr (.inr h))

lemma executeJob_event_shape (exit : Nat → Int) (nres : Except Unit Unit) :
    ∀ n a e, e ∈ (executeJob exit nres n a).1 →
      (∃ b, e = Event.spawn b) ∨ (∃ c, e = Event.notify c) ∨
        e = Event.logNotifyError ∨ e = Event.sremAllJobs := by
  intro n
  induction n using Nat.strong_induction_on with
  | _ n ih =>
    intro a e he
    match n with
    | 0 => exact terminalStep_event_shape nres (exit a) a e (by simpa [executeJob] using he)
    | 1 => exact terminalStep_event_shape nres (exit a) a e (by simpa [executeJob] using he)
    | Nat.succ (Nat.succ k) =>
      by_cases hc : exit a ≠ 0
      · simp only [executeJob, if_pos hc, List.mem_cons] at he
        rcases he with h | h
        · exact .inl ⟨a, h⟩
        · exact ih (k + 1) (by omega) (a + 1) e h
      · exact terminalStep_event_shape nres (exit a) a e
          (by simpa [executeJob, if_neg hc] using he)

lemma spawnCount_handleJob_le (w : RedisWorld) (cfg : Config)
    (o : Nat → String → Bool) (ex : Nat → Int) :
    spawnCount (handleJob w cfg o ex).1 ≤ 1 + cfg.numRetries := by
  obtain ⟨acq, comp, msg, nres⟩ := w
  have hexec := spawnCount_executeJob_le ex nres cfg.numRetries 1
  have hmax : max 1 cfg.numRetries ≤ 1 + cfg.numRetries := by omega
  have hexec2 : spawnCount (executeJob ex nres cfg.numRetries 1).1 ≤ 1 + cfg.numRetries :=
    le_trans hexec hmax
  cases acq with
  | error e => simp [handleJob, spawnCount]
  | ok cnt =>
    cases comp with
    | true =>
      by_cases hc : 1 < cnt <;>
        simp [handleJob, hc, spawnCount, List.countP_append, List.countP_cons]
    | false =>
      cases msg with
      | error e =>
        by_cases hc : 1 < cnt <;>
          simp [handleJob, hc, spawnCount, List.countP_append, List.countP_cons]
      | ok jm =>
        by_cases hwait : (cfg.waitForInputFiles && !jm.inputs.isEmpty) = true
        · cases hw : (waitForInputs o jm.inputs cfg.fileWatchNumRetries).1 with
          | error e =>
            by_cases hc : 1 < cnt <;>
              simp [handleJob, hc, hwait, hw, spawnCount, List.countP_append,
                List.countP_cons]
          | ok v =>
            by_cases hc : 1 < cnt <;>
              · simp only [handleJob, hc, hwait, hw, spawnCount, List.countP_append,
                  List.countP_cons] at hexec2 ⊢
                simp at hexec2 ⊢
                omega
        · by_cases hc : 1 < cnt <;>
            · simp only [handleJob, hc, hwait, spawnCount, List.countP_append,
                List.countP_cons] at hexec2 ⊢
              simp at hexec2 ⊢
              omega

lemma except_unit_dichotomy (e : Except Unit Unit) : e = .ok () ∨ e = .error () := by
  cases e with
  | ok v => cases v; exact .inl rfl
  | error v => cases v; exact .inr rfl

lemma executeJobSettlement_notify_failed (exit : Nat → Int) (n a : Nat) :
    executeJobSettlement exit false n a = Settlement.unsettled := by
  by_cases h : exit a ≠ 0 ∧ 0 < n - 1 <;> simp [executeJobSettlement, h]

/-! ### Claim theorems -/

/-- C1 counterexample: with a command whose every attempt exits 1 and a
configured retry count of `R = 1`, the run performs exactly 1 spawn, not
`R + 1 = 2` as the claim states (`numRetries--` runs before the first
spawn, so the configured value bounds total attempts, not extra
retries). -/
theorem c1_counterexample :
    spawnCount (executeJob (fun _ => 1) (Except.ok ()) 1 1).1 = 1 ∧
    ¬ spawnCount (executeJob (fun _ => 1) (Except.ok ()) 1 1).1 = 1 + 1 := by
  decide

/-- C1 (amended): for a command exiting non-zero on every attempt and a
configured retry count `R ≥ 1`, the run performs exactly `R` spawns (the
configured `HF_VAR_NUMBER_OF_RETRIES` value bounds total attempts) and
exactly 1 completion notification, carrying the last exit code, which is
non-zero; and in every run the total number of spawns is at most `1`
plus the configured retry count. -/
theorem c1_retry_spawn_semantics (exit : Nat → Int) (nres : Except Unit Unit)
    (R a : Nat) (hfail : ∀ k, exit k ≠ 0) (hR : 1 ≤ R) :
    spawnCount (executeJob exit nres R a).1 = R ∧
    notifyCount (executeJob exit nres R a).1 = 1 ∧
    Event.notify (exit (a + R - 1)) ∈ (executeJob exit nres R a).1 ∧
    exit (a + R - 1) ≠ 0 ∧
    ∀ (w : RedisWorld) (cfg : Config) (o : Nat → String → Bool) (ex2 : Nat → Int),
      spawnCount (handleJob w cfg o ex2).1 ≤ 1 + cfg.numRetries :=
  ⟨spawnCount_executeJob_fail exit nres hfail R a hR,
   notifyCount_executeJob exit nres R a,
   executeJob_fail_notify_mem exit nres hfail R a hR,
   hfail _,
   fun w cfg o ex2 => spawnCount_handleJob_le w cfg o ex2⟩

/-- C1 witness: instantiation at the always-failing oracle with
configured retry count 2, starting from attempt 1. -/
theorem c1_retry_spawn_semantics_witness :
    spawnCount (executeJob (fun _ => 1) (Except.ok ()) 2 1).1 = 2 ∧
    notifyCount (executeJob (fun _ => 1) (Except.ok ()) 2 1).1 = 1 ∧
    Event.notify 1 ∈ (executeJob (fun _ => 1) (Except.ok ()) 2 1).1 := by
  have h := c1_retry_spawn_semantics (fun _ => 1) (Except.ok ()) 2 1
    (fun _ => one_ne_zero) (by decide)
  exact ⟨h.1, h.2.1, h.2.2.1⟩

/-- C2: for a task already in the completed set (and an acquisition
increment that returns), the run performs zero spawns and zero
notifications, never retrieves the message, never waits for inputs, and
returns success immediately. -/
theorem c2_completed_short_circuit (w : RedisWorld) (cfg : Config)
    (o : Nat → String → Bool) (ex : Nat → Int) (k : Nat)
    (hacq : w.acqResult = .ok k) (hcomp : w.completed = true) :
    (handleJob w cfg o ex).2 = .ok none ∧
    spawnCount (handleJob w cfg o ex).1 = 0 ∧
    notifyCount (handleJob w cfg o ex).1 = 0 ∧
    Event.getMessage ∉ (handleJob w cfg o ex).1 ∧
    Event.waitInputs ∉ (handleJob w cfg o ex).1 := by
  obtain ⟨acq, comp, msg, nres⟩ := w
  simp only at hacq hcomp
  subst hacq
  subst hcomp
  by_cases hc : 1 < k <;>
    simp [handleJob, hc, spawnCount, notifyCount, List.countP_append, List.countP_cons]

/-- C2 witness: a concrete already-completed world. -/
theorem c2_completed_short_circuit_witness :
    (handleJob ⟨.ok 1, true, .ok ⟨"n", "e", [], [], []⟩, .ok ()⟩ ⟨1, false, 10⟩
        (fun _ _ => false) (fun _ => 0)).2 = .ok none ∧
    spawnCount (handleJob ⟨.ok 1, true, .ok ⟨"n", "e", [], [], []⟩, .ok ()⟩ ⟨1, false, 10⟩
        (fun _ _ => false) (fun _ => 0)).1 = 0 ∧
    notifyCount (handleJob ⟨.ok 1, true, .ok ⟨"n", "e", [], [], []⟩, .ok ()⟩ ⟨1, false, 10⟩
        (fun _ _ => false) (fun _ => 0)).1 = 0 ∧
    Event.getMessage ∉ (handleJob ⟨.ok 1, true, .ok ⟨"n", "e", [], [], []⟩, .ok ()⟩ ⟨1, false, 10⟩
        (fun _ _ => false) (fun _ => 0)).1 ∧
    Event.waitInputs ∉ (handleJob ⟨.ok 1, true, .ok ⟨"n", "e", [], [], []⟩, .ok ()⟩ ⟨1, false, 10⟩
        (fun _ _ => false) (fun _ => 0)).1 :=
  c2_completed_short_circuit _ _ _ _ 1 rfl rfl

/-- C3: for every attempt `a ≥ 1`, every seed `≥ 1` and every value of
the random draw in `[0, 1)`, the backoff delay is an integer in
`[0, backoffSeed * min a 5)`: at least 0 and strictly below the bound. -/
theorem c3_backoff_delay_bounds (rand : ℚ) (seed attempt : ℕ)
    (hseed : 1 ≤ seed) (hatt : 1 ≤ attempt) (h0 : 0 ≤ rand) (h1 : rand < 1) :
    0 ≤ backoffDelay rand seed attempt ∧
    backoffDelay rand seed attempt < (seed : ℤ) * min (attempt : ℤ) 5 := by
  have hfnat : backoffFactor attempt = min attempt 5 := by
    by_cases h : 5 < attempt
    · simp [backoffFactor, h, Nat.min_eq_right (Nat.le_of_lt h)]
    · simp [backoffFactor, h, Nat.min_eq_left (by omega : attempt ≤ 5)]
  have hfpos : 1 ≤ backoffFactor attempt := by
    rw [hfnat]
    exact le_min hatt (by norm_num)
  have hspos : (0 : ℚ) < (seed : ℚ) * (backoffFactor attempt : ℚ) := by
    have hs : (0 : ℚ) < (seed : ℚ) := by exact_mod_cast Nat.lt_of_lt_of_le Nat.zero_lt_one hseed
    have hfq : (0 : ℚ) < (backoffFactor attempt : ℚ) := by
      exact_mod_cast Nat.lt_of_lt_of_le Nat.zero_lt_one hfpos
    exact mul_pos hs hfq
  constructor
  · apply Int.le_floor.mpr
    have : (0 : ℚ) ≤ rand * (seed : ℚ) * (backoffFactor attempt : ℚ) :=
      mul_nonneg (mul_nonneg h0 (by positivity)) (by positivity)
    simpa using this
  · have hlt : backoffDelay rand seed attempt < (seed : ℤ) * (backoffFactor attempt : ℤ) := by
      apply Int.floor_lt.mpr
      push_cast
      calc rand * (seed : ℚ) * (backoffFactor attempt : ℚ)
          = rand * ((seed : ℚ) * (backoffFactor attempt : ℚ)) := by ring
        _ < 1 * ((seed : ℚ) * (backoffFactor attempt : ℚ)) :=
            mul_lt_mul_of_pos_right h1 hspos
        _ = (seed : ℚ) * (backoffFactor attempt : ℚ) := one_mul _
    have hcast : ((backoffFactor attempt : ℕ) : ℤ) = min (attempt : ℤ) 5 := by
      rw [hfnat]
      push_cast
      rfl
    rw [hcast] at hlt
    exact hlt

/-- C3 witness: attempt 3, seed 10, random draw one half. -/
theorem c3_backoff_delay_bounds_witness :
    (0 : ℚ) ≤ 1 / 2 ∧ (1 / 2 : ℚ) < 1 ∧
    0 ≤ backoffDelay (1 / 2) 10 3 ∧
    backoffDelay (1 / 2) 10 3 < (10 : ℤ) * min (3 : ℤ) 5 := by
  have h := c3_backoff_delay_bounds (1 / 2) 10 3 (by norm_num) (by norm_num)
    (by norm_num) (by norm_num)
  exact ⟨by norm_num, by norm_num, h.1, h.2⟩

/-- C4: the input wait always produces exactly one of the two outcomes
(success or retry-budget failure), and when no watched file ever exists
and the file list is non-empty it fails after exactly `maxRetries + 1`
rounds of existence checks. -/
theorem c4_wait_termination_and_rounds (o : Nat → String → Bool)
    (files : List String) (maxR : Nat) :
    ((waitForInputs o files maxR).1 = .ok () ∨
      (waitForInputs o files maxR).1 = .error ()) ∧
    (files ≠ [] → (∀ r f, f ∈ files → o r f = false) →
      (waitForInputs o files maxR).1 = .error () ∧
      (waitForInputs o files maxR).2.1 = maxR + 1) := by
  constructor
  · exact except_unit_dichotomy _
  · intro hne hall
    exact waitCheckFuel_fail o (maxR + 1) 0 files [] hne hall

/-- C4 witness: one file that never appears, retry budget 2: failure
after exactly 3 check rounds. -/
theorem c4_wait_termination_and_rounds_witness :
    (waitForInputs (fun _ _ => false) ["in1.txt"] 2).1 = .error () ∧
    (waitForInputs (fun _ _ => false) ["in1.txt"] 2).2.1 = 3 :=
  (c4_wait_termination_and_rounds (fun _ _ => false) ["in1.txt"] 2).2
    (by decide) (fun _ _ _ => rfl)

/-- C5: in the first round exactly the input files are checked; each
later round checks exactly the previous round's files minus those
observed; a file observed to exist in a round is in that round's ready
list; and a file observed to exist in round `i` is never
existence-checked in any later round `j > i`. -/
theorem c5_watch_ready_invariants (o : Nat → String → Bool)
    (files : List String) (maxR : Nat) :
    ((waitForInputs o files maxR).2.2)[0]? =
      some (files, files.filter fun f => o 0 f) ∧
    (∀ i e e', ((waitForInputs o files maxR).2.2)[i]? = some e →
      ((waitForInputs o files maxR).2.2)[i + 1]? = some e' →
      e'.1 = e.1.filter fun f => !(o i f)) ∧
    (∀ i e f, ((waitForInputs o files maxR).2.2)[i]? = some e →
      f ∈ e.1 → o i f = true → f ∈ e.2) ∧
    (∀ i j e e' f, i < j →
      ((waitForInputs o files maxR).2.2)[i]? = some e →
      ((waitForInputs o files maxR).2.2)[j]? = some e' →
      f ∈ e.1 → o i f = true → f ∉ e'.1) := by
  refine ⟨?_, ?_, ?_, ?_⟩
  · simpa using waitCheckFuel_get0 o maxR 0 files []
  · intro i e e' h1 h2
    simpa using waitCheckFuel_consec o (maxR + 1) 0 files [] i e e' h1 h2
  · intro i e f h1 hf ho
    exact waitCheckFuel_ready o (maxR + 1) 0 files [] i e f h1 hf (by simpa using ho)
  · intro i j e e' f hij h1 h2 hf ho
    exact waitCheckFuel_no_recheck o (maxR + 1) 0 files [] i j e e' f hij h1 h2 hf
      (by simpa using ho)

/-- C5 witness: file x appears in round 1 of four rounds; it enters the
ready list that round and is absent from the round-2 check set. -/
theorem c5_watch_ready_invariants_witness :
    ((waitForInputs (fun r f => (r == 1) && (f == "x")) ["x", "y"] 3).2.2)[1]? =
      some (["x", "y"], ["x"]) ∧
    "x" ∈ (["x"] : List String) ∧
    "x" ∉ (["y"] : List String) := by
  have h := c5_watch_ready_invariants (fun r f => (r == 1) && (f == "x")) ["x", "y"] 3
  refine ⟨by decide, ?_, ?_⟩
  · exact h.2.2.1 1 (["x", "y"], ["x"]) "x" (by decide) (by decide) (by decide)
  · exact h.2.2.2 1 2 (["x", "y"], ["x"]) (["y"], ["x"]) "x" (by decide)
      (by decide) (by decide) (by decide) (by decide)

/-- C6 counterexample: an IO sample raising a non-not-found error is
neither logged (no sample line, no console message) nor followed by a
reschedule, so the loop terminates instead of continuing as the claim
states. -/
theorem c6_counterexample :
    (logProcIOStep (.error ProcError.other)).reschedules = false ∧
    (logProcIOStep (.error ProcError.other)).loggedSample = false ∧
    (logProcIOStep (.error ProcError.other)).loggedConsole = false := by
  decide

/-- C6 (amended): every sampling error of every kind terminates its
loop (no reschedule).  The IO sampler prints a console note only for a
not-found error and swallows other errors silently; the network-device
sampler is silent on every error; the usage sampler prints a console
message on every error.  Successful samples always reschedule. -/
theorem c6_sampler_error_semantics (e : ProcError) :
    (logProcIOStep (.error e)).reschedules = false ∧
    (logProcNetDevStep (.error e)).reschedules = false ∧
    (logPidUsageStep (.error e)).reschedules = false ∧
    (logPidUsageStep (.error e)).loggedConsole = true ∧
    (logProcNetDevStep (.error e)).loggedConsole = false ∧
    (logProcIOStep (.error ProcError.notFound)).loggedConsole = true ∧
    (logProcIOStep (.error ProcError.other)).loggedConsole = false ∧
    (logProcIOStep (.ok ())).reschedules = true ∧
    (logProcNetDevStep (.ok ())).reschedules = true ∧
    (logPidUsageStep (.ok ())).reschedules = true := by
  cases e <;> exact ⟨rfl, rfl, rfl, rfl, rfl, rfl, rfl, rfl, rfl, rfl⟩

/-- C7 (code bug): when the completion notification fails after the
terminal exit, the error is logged and the notification is attempted
exactly once (no local retry), as the claim states; but the rethrow
happens inside the async close listener and `reject` is never invoked,
so the executor's promise is never rejected — for any notification
outcome it is either resolved or unsettled — and with a failing
notification it is unsettled, so a run reaching execution with a
failing notification never settles: the error is not raised to the
caller and the run hangs instead of failing fatally. -/
theorem c7_notify_failure_not_raised (ex : Nat → Int) (n a : Nat) :
    Event.logNotifyError ∈ (executeJob ex (.error ()) n a).1 ∧
    notifyCount (executeJob ex (.error ()) n a).1 = 1 ∧
    executeJobSettlement ex false n a = Settlement.unsettled ∧
    (∀ b : Bool, executeJobSettlement ex b n a = Settlement.unsettled ∨
      ∃ c, executeJobSettlement ex b n a = Settlement.resolved c) ∧
    ∀ (cnt nR fwr : Nat) (jm : JobMessage) (o : Nat → String → Bool)
      (ex2 : Nat → Int),
      handleJobRun ⟨.ok cnt, false, .ok jm, .error ()⟩ ⟨nR, false, fwr⟩ o ex2 =
        RunSettlement.unsettled := by
  refine ⟨(executeJob_notify_error ex n a).2.1, notifyCount_executeJob ex _ n a,
    executeJobSettlement_notify_failed ex n a, ?_, ?_⟩
  · intro b
    cases b with
    | false => exact .inl (executeJobSettlement_notify_failed ex n a)
    | true =>
      by_cases h : ex a ≠ 0 ∧ 0 < n - 1
      · exact .inl (by unfold executeJobSettlement; rw [if_pos h])
      · exact .inr ⟨ex a, by unfold executeJobSettlement; rw [if_neg h]; rfl⟩
  · intro cnt nR fwr jm o ex2
    simp [handleJobRun, executeJobSettlement_notify_failed ex2 nR 1]

/-- C8 counterexample: on the two-element queue a, b the retrieval
returns b and leaves the queue rotated to b, a, so the queue's content
as a sequence is changed by the retrieval. -/
theorem c8_counterexample :
    (brpoplpushSameKey ["a", "b"]).1 = some "b" ∧
    (brpoplpushSameKey ["a", "b"]).2 = ["b", "a"] ∧
    (brpoplpushSameKey ["a", "b"]).2 ≠ ["a", "b"] := by
  decide

/-- C8 (amended): on a non-empty queue the retrieval pops the tail
value and re-pushes that same value at the head of the same key, so the
retrieved message is still in the queue and the queue's multiset of
messages (and its length) is unchanged; the order is rotated, not
preserved. -/
theorem c8_nondestructive_retrieval (queue : List String) (hne : queue ≠ []) :
    (brpoplpushSameKey queue).1 = some (queue.getLast hne) ∧
    queue.getLast hne ∈ (brpoplpushSameKey queue).2 ∧
    ((brpoplpushSameKey queue).2 : Multiset String) = (queue : Multiset String) ∧
    (brpoplpushSameKey queue).2.length = queue.length := by
  have hlast : queue.getLast? = some (queue.getLast hne) :=
    List.getLast?_eq_getLast queue hne
  have hpair : brpoplpushSameKey queue =
      (some (queue.getLast hne), queue.getLast hne :: queue.dropLast) := by
    simp only [brpoplpushSameKey, hlast]
  rw [hpair]
  refine ⟨rfl, List.mem_cons_self _ _, ?_, ?_⟩
  · have hperm := List.perm_append_singleton (queue.getLast hne) queue.dropLast
    rw [List.dropLast_append_getLast hne] at hperm
    exact Multiset.coe_eq_coe.mpr hperm.symm
  · have hpos : 1 ≤ queue.length := List.length_pos.mpr hne
    simp only [List.length_cons, List.length_dropLast]
    omega

/-- C8 witness: instantiation at the queue a, b. -/
theorem c8_nondestructive_retrieval_witness :
    (brpoplpushSameKey ["a", "b"]).1 = some "b" ∧
    "b" ∈ (brpoplpushSameKey ["a", "b"]).2 ∧
    ((brpoplpushSameKey ["a", "b"]).2 : Multiset String) =
      ((["a", "b"] : List String) : Multiset String) ∧
    (brpoplpushSameKey ["a", "b"]).2.length = (["a", "b"] : List String).length := by
  have h := c8_nondestructive_retrieval ["a", "b"] (by decide)
  exact ⟨h.1, h.2.1, h.2.2.1, h.2.2.2⟩

/-- C9 counterexample: when the counter increment itself errors, the
run fails (the rejection propagates) and never reaches the completion
check, contradicting the claim that the acquire step never fails the
run and always continues. -/
theorem c9_counterexample :
    (handleJob ⟨.error (), false, .ok ⟨"n", "e", [], [], []⟩, .ok ()⟩ ⟨1, false, 10⟩
      (fun _ _ => false) (fun _ => 0)).2 = .error () ∧
    Event.completionCheck ∉
      (handleJob ⟨.error (), false, .ok ⟨"n", "e", [], [], []⟩, .ok ()⟩ ⟨1, false, 10⟩
        (fun _ _ => false) (fun _ => 0)).1 :=
  ⟨rfl, by decide⟩

/-- C9 (amended): when the counter increment succeeds with any count,
the run continues to the completion check and logs a duplicate warning
exactly when the count exceeds 1, with no corrective action; when the
increment itself errors, the error propagates and the run fails. -/
theorem c9_acquire_semantics (w : RedisWorld) (cfg : Config)
    (o : Nat → String → Bool) (ex : Nat → Int) :
    (∀ k, w.acqResult = .ok k →
      Event.completionCheck ∈ (handleJob w cfg o ex).1 ∧
      (Event.warnDuplicate ∈ (handleJob w cfg o ex).1 ↔ 1 < k)) ∧
    (w.acqResult = .error () → (handleJob w cfg o ex).2 = .error ()) := by
  obtain ⟨acq, comp, msg, nres⟩ := w
  constructor
  · intro k hacq
    simp only at hacq
    subst hacq
    have hshape := executeJob_event_shape ex nres cfg.numRetries 1
    have hwarn : Event.warnDuplicate ∉ (executeJob ex nres cfg.numRetries 1).1 := by
      intro hmem
      rcases hshape Event.warnDuplicate hmem with ⟨b, h⟩ | ⟨c, h⟩ | h | h <;> simp at h
    have hcc : Event.completionCheck ∉ (executeJob ex nres cfg.numRetries 1).1 := by
      intro hmem
      rcases hshape Event.completionCheck hmem with ⟨b, h⟩ | ⟨c, h⟩ | h | h <;> simp at h
    cases comp with
    | true =>
      by_cases hc : 1 < k <;> simp [handleJob, hc]
    | false =>
      cases msg with
      | error e =>
        by_cases hc : 1 < k <;> simp [handleJob, hc]
      | ok jm =>
        by_cases hwait : (cfg.waitForInputFiles && !jm.inputs.isEmpty) = true
        · cases hw : (waitForInputs o jm.inputs cfg.fileWatchNumRetries).1 with
          | error e =>
            by_cases hc : 1 < k <;> simp [handleJob, hc, hwait, hw]
          | ok v =>
            by_cases hc : 1 < k <;>
              simp [handleJob, hc, hwait, hw, hwarn, hcc]
        · by_cases hc : 1 < k <;>
            simp [handleJob, hc, hwait, hwarn, hcc]
  · intro hacq
    simp only at hacq
    subst hacq
    simp [handleJob]

/-- C9 witness: a duplicate delivery (count 2) continues to the
completion check and logs the warning. -/
theorem c9_acquire_semantics_witness :
    Event.completionCheck ∈
      (handleJob ⟨.ok 2, false, .ok ⟨"n", "e", [], [], []⟩, .ok ()⟩ ⟨1, false, 10⟩
        (fun _ _ => false) (fun _ => 0)).1 ∧
    Event.warnDuplicate ∈
      (handleJob ⟨.ok 2, false, .ok ⟨"n", "e", [], [], []⟩, .ok ()⟩ ⟨1, false, 10⟩
        (fun _ _ => false) (fun _ => 0)).1 := by
  have h := (c9_acquire_semantics ⟨.ok 2, false, .ok ⟨"n", "e", [], [], []⟩, .ok ()⟩
    ⟨1, false, 10⟩ (fun _ _ => false) (fun _ => 0)).1 2 rfl
  exact ⟨h.1, h.2.mpr (by decide)⟩

/-- C10: every handling run records the `hf_all_jobs` member addition as
its very first action; the member is removed only on a path that called
the completion notification; every failing run and every short-circuited
run leaves the member in place; and every run that returns a terminal
exit code has removed it. -/
theorem c10_all_jobs_set_lifecycle (w : RedisWorld) (cfg : Config)
    (o : Nat → String → Bool) (ex : Nat → Int) :
    (handleJob w cfg o ex).1.head? = some Event.saddAllJobs ∧
    (Event.sremAllJobs ∈ (handleJob w cfg o ex).1 →
      ∃ c, Event.notify c ∈ (handleJob w cfg o ex).1) ∧
    ((handleJob w cfg o ex).2 = .error () →
      Event.sremAllJobs ∉ (handleJob w cfg o ex).1) ∧
    ((handleJob w cfg o ex).2 = .ok none →
      Event.sremAllJobs ∉ (handleJob w cfg o ex).1) ∧
    (∀ c, (handleJob w cfg o ex).2 = .ok (some c) →
      Event.sremAllJobs ∈ (handleJob w cfg o ex).1) := by
  obtain ⟨acq, comp, msg, nres⟩ := w
  cases acq with
  | error e =>
    cases e
    refine ⟨by simp [handleJob], ?_, ?_, ?_, ?_⟩ <;> simp [handleJob]
  | ok cnt =>
    cases comp with
    | true =>
      by_cases hc : 1 < cnt <;>
        refine ⟨by simp [handleJob, hc], ?_, ?_, ?_, ?_⟩ <;> simp [handleJob, hc]
    | false =>
      cases msg with
      | error e =>
        by_cases hc : 1 < cnt <;>
          refine ⟨by simp [handleJob, hc], ?_, ?_, ?_, ?_⟩ <;> simp [handleJob, hc]
      | ok jm =>
        rcases except_unit_dichotomy nres with hok | herr
        · subst hok
          have hsrem := (executeJob_notify_ok ex cfg.numRetries 1).2
          obtain ⟨cterm, hcterm⟩ := (executeJob_notify_ok ex cfg.numRetries 1).1
          obtain ⟨cn, hcn⟩ := executeJob_exists_notify ex (.ok ()) cfg.numRetries 1
          by_cases hwait : (cfg.waitForInputFiles && !jm.inputs.isEmpty) = true
          · cases hw : (waitForInputs o jm.inputs cfg.fileWatchNumRetries).1 with
            | error e2 =>
              by_cases hc : 1 < cnt <;>
                refine ⟨by simp [handleJob, hc, hwait, hw], ?_, ?_, ?_, ?_⟩ <;>
                  simp [handleJob, hc, hwait, hw]
            | ok v =>
              by_cases hc : 1 < cnt <;>
                refine ⟨by simp [handleJob, hc, hwait, hw], ?_, ?_, ?_, ?_⟩ <;>
                  simp [handleJob, hc, hwait, hw, hcterm, hsrem, Except.map] <;>
                  exact ⟨cn, hcn⟩
          · by_cases hc : 1 < cnt <;>
              refine ⟨by simp [handleJob, hc, hwait], ?_, ?_, ?_, ?_⟩ <;>
                simp [handleJob, hc, hwait, hcterm, hsrem, Except.map] <;>
                exact ⟨cn, hcn⟩
        · subst herr
          have herr2 := executeJob_notify_error ex cfg.numRetries 1
          by_cases hwait : (cfg.waitForInputFiles && !jm.inputs.isEmpty) = true
          · cases hw : (waitForInputs o jm.inputs cfg.fileWatchNumRetries).1 with
            | error e2 =>
              by_cases hc : 1 < cnt <;>
                refine ⟨by simp [handleJob, hc, hwait, hw], ?_, ?_, ?_, ?_⟩ <;>
                  simp [handleJob, hc, hwait, hw]
            | ok v =>
              by_cases hc : 1 < cnt <;>
                refine ⟨by simp [handleJob, hc, hwait, hw], ?_, ?_, ?_, ?_⟩ <;>
                  simp [handleJob, hc, hwait, hw, herr2.1, herr2.2.2, Except.map]
          · by_cases hc : 1 < cnt <;>
              refine ⟨by simp [handleJob, hc, hwait], ?_, ?_, ?_, ?_⟩ <;>
                simp [handleJob, hc, hwait, herr2.1, herr2.2.2, Except.map]

/-- C10 witness: a fully successful run: member added first, removed
after notification. -/
theorem c10_all_jobs_set_lifecycle_witness :
    (handleJob ⟨.ok 1, false, .ok ⟨"n", "e", [], [], []⟩, .ok ()⟩ ⟨1, false, 10⟩
      (fun _ _ => false) (fun _ => 0)).1.head? = some Event.saddAllJobs ∧
    Event.sremAllJobs ∈
      (handleJob ⟨.ok 1, false, .ok ⟨"n", "e", [], [], []⟩, .ok ()⟩ ⟨1, false, 10⟩
        (fun _ _ => false) (fun _ => 0)).1 := by
  have h := c10_all_jobs_set_lifecycle ⟨.ok 1, false, .ok ⟨"n", "e", [], [], []⟩, .ok ()⟩
    ⟨1, false, 10⟩ (fun _ _ => false) (fun _ => 0)
  exact ⟨h.1, h.2.2.2.2 0 rfl⟩

end HFJob
